import Mathlib

/-!
Verification of the alignment and reconciliation core of the Ocean-to-Database
repository (`align_arrays.py`, `external_data_to_database.py`,
`generate_sql_query.py`).

TimePoints (datetimes) are integers at the data's fixed sub-minute resolution,
so subtraction, absolute value and comparison are integer operations; the
17-minute header offset and the 20-minute tolerance keep their numeric values.
Sensor parameter values are modelled as integers as well, since the
reconciliation core only compares them with zero and forwards them unchanged.
Fallible code is embedded in `Except`.
-/

namespace OceanToDatabase

/-- Error raised by `find_closest` on a malformed search array; the source
raises `IndexError` (empty array) or `AssertionError` (wrong type), the spec
files both under `InvalidInputKind`. -/
inductive AlignError where
  | invalidInput : AlignError
deriving DecidableEq

/-- `np.searchsorted(a, v, side='left')` on a sorted array: the left insertion
index, i.e. the number of elements strictly below the pivot. -/
def searchsortedLeft (l : List Int) (p : Int) : Nat :=
  l.countP (fun x => decide (x < p))

/-- `np.argmin` over a list of distances: index of the first minimal entry
(first occurrence wins on ties). -/
def argminAux : List Nat → Nat → Nat → Nat → Nat
  | [], _, best, _ => best
  | d :: ds, bestVal, best, cur =>
    if d < bestVal then argminAux ds d cur (cur + 1)
    else argminAux ds bestVal best (cur + 1)

/-- `np.argmin`, empty input defaulting to 0 (never hit by the source). -/
def argmin : List Nat → Nat
  | [] => 0
  | d :: ds => argminAux ds d 0 1

/-- `find_closest` (align_arrays.py, lines 4-24).  Binary-searches the left
insertion index; away from index 0 it compares the two-element window
`search_array[index-1:index+1]` by absolute distance and returns the argmin
(first minimum on ties); at index 0 it returns `search_array[0]`, which on an
empty array fails (`IndexError`, the spec's `InvalidInputKind`). -/
def findClosestE (searchArray : List Int) (pivot : Int) : Except AlignError Int :=
  let index := searchsortedLeft searchArray pivot
  if index ≠ 0 then
    let values := (searchArray.drop (index - 1)).take 2
    let distances := values.map (fun v => (v - pivot).natAbs)
    match values.get? (argmin distances) with
    | some v => .ok v
    | none => .error .invalidInput
  else
    match searchArray.get? index with
    | some v => .ok v
    | none => .error .invalidInput

/-- `closest_within_distance` (align_arrays.py, lines 27-41): wraps
`find_closest`, keeping the match iff its absolute distance is at most
`max_dist` (inclusive bound). -/
def closestWithinDistanceE (searchArray : List Int) (pivot : Int) (maxDist : Nat) :
    Except AlignError (Option Int) :=
  (findClosestE searchArray pivot).map
    (fun nearest => if (nearest - pivot).natAbs ≤ maxDist then some nearest else none)

/-- The per-pivot body of the `align_arrays` loop (line 63): `find_closest`
when `max_dist is None`, else `closest_within_distance`. -/
def alignOne (s : List Int) (maxDist : Option Nat) (p : Int) :
    Except AlignError (Option Int) :=
  match maxDist with
  | none => (findClosestE s p).map some
  | some d => closestWithinDistanceE s p d

/-- The output-filling loop of `align_arrays` (lines 60-63): one slot per
pivot, in order; the first exception aborts the whole call. -/
def alignLoop (f : Int → Except AlignError (Option Int)) :
    List Int → Except AlignError (List (Option Int))
  | [] => .ok []
  | p :: ps =>
    match f p, alignLoop f ps with
    | .ok y, .ok ys => .ok (y :: ys)
    | .error e, _ => .error e
    | _, .error e => .error e

/-- `align_arrays` (align_arrays.py, lines 44-64): sorts a copy of the search
array (`np.sort(..., kind='mergesort')` is a stable ascending sort; over
integers every sorted permutation is the same list, so insertion sort is
extensionally identical), then fills one output slot per pivot. -/
def alignArraysE (searchArray pivotArray : List Int) (maxDist : Option Nat) :
    Except AlignError (List (Option Int)) :=
  let s := List.insertionSort (· ≤ ·) searchArray
  alignLoop (alignOne s maxDist) pivotArray

/-! ### Reconciliation driver (`external_data_to_database.py`) -/

/-- `data[(data[p] > 0)]` (external_data_to_database.py, line 122): the rows of
one parameter column, filtered to strictly positive values.  A row is a
`(datetime, value)` pair. -/
def subData (data : List (Int × Int)) : List (Int × Int) :=
  data.filter (fun r => decide (0 < r.2))

/-- `sub_data[p][dtime]` (line 131): the dataframes are indexed by their
`datetime` column with duplicates dropped upstream keeping the first
occurrence, so the value at a datetime is the second component of the first
row carrying it. -/
def lookupVal (rows : List (Int × Int)) (t : Int) : Int :=
  ((rows.filter (fun r => r.1 == t)).map Prod.snd).headD 0

/-- The truthiness tests `if atime` and `if dtime` (lines 128 and 131): `None`
is falsy and a matched timestamp is truthy. -/
def truthy : Option Int → Bool
  | none => false
  | some _ => true

/-- The fixed 17-minute forward offset added to every header time before
alignment (line 182). -/
def adjustedHdrtimes (hdrtimes : List Int) : List Int :=
  hdrtimes.map (fun t => t + 17)

/-- The alignment step of `_get_hdrtimes_and_aligned_times` (line 183): the
offset-adjusted header times are the pivots, the (already filtered) sensor
datetimes are the search array, and the tolerance is 20 minutes. -/
def alignedDates (sub : List (Int × Int)) (hdrtimes : List Int) :
    Except AlignError (List (Option Int)) :=
  alignArraysE (sub.map Prod.fst) (adjustedHdrtimes hdrtimes) (some 20)

/-- One `(eng_table, parameter)` unit of `update_table` (lines 120-136),
yielding the `(key, value)` pairs actually executed: `hdrtimes_to_update`
keeps the pre-offset header times whose aligned entry is truthy,
`param_data_to_update` looks the matched sensor datetimes up in the filtered
data, and `run_update_sql` (generate_sql_query.py, lines 98-111) zips the two
lists into one update statement per pair. -/
def updateUnit (data : List (Int × Int)) (hdrtimes : List Int) :
    Except AlignError (List (Int × Int)) :=
  let sub := subData data
  (alignedDates sub hdrtimes).map (fun aligned =>
    let hdrtimesToUpdate :=
      ((hdrtimes.zip aligned).filter (fun ha => truthy ha.2)).map Prod.fst
    let paramDataToUpdate :=
      (aligned.filter truthy).map (fun a => lookupVal sub (a.getD 0))
    hdrtimesToUpdate.zip paramDataToUpdate)

/-- A persistence effect reaching the backing store: one executed update
statement (`cursor.execute`, generate_sql_query.py line 111) or one
transaction commit (`self.conn.commit()`, line 136). -/
inductive DbAction where
  | execUpdate (key : Int) (value : Int) : DbAction
  | commit : DbAction
deriving DecidableEq

/-- The persistence effects of one `(eng_table, parameter)` unit of
`update_table`, as a function of the uploader's `testing` flag.  The flag is
stored by `__init__` (line 47) but `update_table` never consults it: lines
135-136 execute the update statements and the commit unconditionally, so the
flag argument is dead. -/
def updateUnitActions (testing : Bool) (data : List (Int × Int))
    (hdrtimes : List Int) : Except AlignError (List DbAction) :=
  (updateUnit data hdrtimes).map (fun updates =>
    updates.map (fun kv => DbAction.execUpdate kv.1 kv.2) ++ [DbAction.commit])

/-- The for-loop of `_test_for_eng_table_existence` (lines 98-102) with
Python's list-iterator semantics: the hidden index advances after each fetch
even when the body removed the fetched element, so the element that slid into
the freed slot is never visited; `list.remove` deletes the first occurrence
of its argument. -/
def removePass (tableExists : String → Bool) (tables : List String) (i : Nat) :
    List String :=
  if h : i < tables.length then
    let x := tables.get ⟨i, h⟩
    if tableExists x then removePass tableExists tables (i + 1)
    else removePass tableExists (tables.erase x) (i + 1)
  else tables
termination_by tables.length - i
decreasing_by
  · omega
  · have hx : x ∈ tables := tables.get_mem _ h
    rw [List.length_erase_of_mem hx]
    omega

/-- `_test_for_eng_table_existence` (lines 91-102): one pass of the removal
loop over the resolved table list, starting at index 0.  The surviving list is
what `update_table` iterates over and what the returned metadata reports as
`Engineering Tables` (lines 119 and 142). -/
def testForEngTableExistence (tableExists : String → Bool)
    (tables : List String) : List String :=
  removePass tableExists tables 0

/-! ### Helper lemmas: nearest-match aligner -/

/-- On a sorted list, the left insertion index splits the list into a strict
lower part and an at-least part. -/
lemma sorted_split (p : Int) :
    ∀ l : List Int, l.Sorted (· ≤ ·) →
      ∃ l₁ l₂, l = l₁ ++ l₂ ∧ l₁.length = searchsortedLeft l p ∧
        (∀ x ∈ l₁, x < p) ∧ (∀ x ∈ l₂, p ≤ x) := by
  intro l
  induction l with
  | nil => exact fun _ => ⟨[], [], rfl, rfl, by simp, by simp⟩
  | cons x xs ih =>
    intro hs
    rw [List.sorted_cons] at hs
    obtain ⟨hx, hxs⟩ := hs
    by_cases hxp : x < p
    · obtain ⟨l₁, l₂, heq, hlen, h1, h2⟩ := ih hxs
      refine ⟨x :: l₁, l₂, by rw [heq]; rfl, ?_, ?_, h2⟩
      · have hstep : searchsortedLeft (x :: xs) p = searchsortedLeft xs p + 1 := by
          simp [searchsortedLeft, List.countP_cons, hxp]
        simp only [List.length_cons, hstep, hlen]
      · intro y hy
        rcases List.mem_cons.mp hy with h | h
        · exact h ▸ hxp
        · exact h1 y h
    · have hall : ∀ y ∈ x :: xs, p ≤ y := by
        intro y hy
        rcases List.mem_cons.mp hy with h | h
        · subst h; omega
        · exact le_trans (by omega) (hx y h)
      have hz : searchsortedLeft (x :: xs) p = 0 := by
        rw [searchsortedLeft, List.countP_eq_zero]
        intro y hy
        simpa using not_lt.mpr (hall y hy)
      exact ⟨[], x :: xs, rfl, by rw [hz]; rfl, by simp, hall⟩

/-- `find_closest` at insertion index 0 returns the head. -/
lemma findClosestE_idx_zero (l : List Int) (p b : Int) (t : List Int)
    (hidx : searchsortedLeft l p = 0) (hl : l = b :: t) :
    findClosestE l p = .ok b := by
  subst hl
  simp [findClosestE, hidx]

/-- `find_closest` with a one-element window `[a]` (insertion index past the
end) returns `a`. -/
lemma findClosestE_window_one (l : List Int) (p a : Int) (k : Nat)
    (hidx : searchsortedLeft l p = k + 1) (hdrop : l.drop k = [a]) :
    findClosestE l p = .ok a := by
  simp [findClosestE, hidx, hdrop, argmin, argminAux]

/-- `find_closest` with a two-element window `[a, b]` returns the argmin of
the two distances, the earlier element `a` on ties. -/
lemma findClosestE_window_two (l : List Int) (p a b : Int) (k : Nat) (t : List Int)
    (hidx : searchsortedLeft l p = k + 1) (hdrop : l.drop k = a :: b :: t) :
    findClosestE l p
      = .ok (if (b - p).natAbs < (a - p).natAbs then b else a) := by
  by_cases hd : (b - p).natAbs < (a - p).natAbs <;>
    simp [findClosestE, hidx, hdrop, argmin, argminAux, hd]

/-- Core correctness of `find_closest` on a sorted non-empty array: it
returns an element at minimal absolute distance from the pivot. -/
lemma findClosest_spec (l : List Int) (p : Int)
    (hs : l.Sorted (· ≤ ·)) (hne : l ≠ []) :
    ∃ v, findClosestE l p = .ok v ∧ v ∈ l ∧
      ∀ w ∈ l, (v - p).natAbs ≤ (w - p).natAbs := by
  obtain ⟨l₁, l₂, heq, hlen, h1, h2⟩ := sorted_split p l hs
  subst heq
  rcases List.eq_nil_or_concat l₁ with h1nil | ⟨l₁', a, hcat⟩
  · subst h1nil
    cases l₂ with
    | nil => simp at hne
    | cons b t =>
      have hidx : searchsortedLeft ([] ++ b :: t) p = 0 := by
        rw [← hlen]; rfl
      refine ⟨b, findClosestE_idx_zero _ p b t hidx rfl, by simp, ?_⟩
      intro w hw
      simp only [List.nil_append] at hw hs
      have hpw : p ≤ w := h2 w (by simpa using hw)
      have hpb : p ≤ b := h2 b (by simp)
      have hbw : b ≤ w := by
        rcases List.mem_cons.mp hw with h | h
        · omega
        · exact (List.sorted_cons.mp hs).1 w h
      omega
  · have hcat' : l₁ = l₁' ++ [a] := by simpa using hcat
    subst hcat'
    have hidx : searchsortedLeft (l₁' ++ [a] ++ l₂) p = l₁'.length + 1 := by
      rw [← hlen]; simp
    have hmema : a ∈ l₁' ++ [a] := by simp
    have hap : a < p := h1 a hmema
    have hsplit := List.pairwise_append.mp hs
    have hwa : ∀ w ∈ l₁', w ≤ a := by
      intro w hw
      exact (List.pairwise_append.mp hsplit.1).2.2 w hw a (by simp)
    cases l₂ with
    | nil =>
      have hdrop : (l₁' ++ [a] ++ []).drop l₁'.length = [a] := by
        rw [List.append_nil, List.drop_left]
      refine ⟨a, findClosestE_window_one _ p a l₁'.length hidx hdrop, by simp, ?_⟩
      intro w hw
      simp only [List.append_nil, List.mem_append, List.mem_singleton] at hw
      rcases hw with hw | hw
      · have := hwa w hw
        have := h1 w (by simp [hw])
        omega
      · subst hw; omega
    | cons b t =>
      have hdrop : (l₁' ++ [a] ++ b :: t).drop l₁'.length = a :: b :: t := by
        rw [List.append_assoc, List.drop_left]; rfl
      have hpb : p ≤ b := h2 b (by simp)
      have hbw : ∀ w ∈ b :: t, b ≤ w := by
        intro w hw
        rcases List.mem_cons.mp hw with h | h
        · omega
        · exact (List.sorted_cons.mp hsplit.2.1).1 w h
      refine ⟨_, findClosestE_window_two _ p a b l₁'.length t hidx hdrop, ?_, ?_⟩
      · by_cases hd : (b - p).natAbs < (a - p).natAbs <;> simp [hd]
      · intro w hw
        simp only [List.mem_append, List.mem_singleton, List.mem_cons] at hw
        have hcases : (w ≤ a ∧ w < p) ∨ p ≤ w ∧ b ≤ w := by
          rcases hw with (hw | hw | hnil) | hw
          · exact Or.inl ⟨hwa w hw, h1 w (by simp [hw])⟩
          · subst hw; exact Or.inl ⟨le_refl w, hap⟩
          · exact absurd hnil (List.not_mem_nil w)
          · exact Or.inr ⟨h2 w (by simpa using hw), hbw w (by simpa using hw)⟩
        by_cases hd : (b - p).natAbs < (a - p).natAbs <;> simp [hd] <;> omega


/-- `find_closest` never fails on a non-empty search array (sorted or not):
the insertion index is at most the length, so the candidate window is
non-empty and the argmin hits it. -/
lemma findClosestE_ok_of_ne_nil (l : List Int) (p : Int) (hne : l ≠ []) :
    ∃ v, findClosestE l p = .ok v := by
  by_cases h0 : searchsortedLeft l p = 0
  · cases l with
    | nil => exact absurd rfl hne
    | cons b t => exact ⟨b, findClosestE_idx_zero _ p b t h0 rfl⟩
  · obtain ⟨k, hk⟩ : ∃ k, searchsortedLeft l p = k + 1 :=
      ⟨searchsortedLeft l p - 1, by omega⟩
    have hkl : k < l.length := by
      have hle : searchsortedLeft l p ≤ l.length :=
        List.countP_le_length (fun x => decide (x < p))
      omega
    cases hrest : l.drop (k + 1) with
    | nil =>
      exact ⟨l[k], findClosestE_window_one l p l[k] k hk
        (by rw [List.drop_eq_getElem_cons hkl, hrest])⟩
    | cons b t =>
      exact ⟨_, findClosestE_window_two l p l[k] b k t hk
        (by rw [List.drop_eq_getElem_cons hkl, hrest])⟩

/-! ### Claims C1, C2, C4, C9: the nearest-match aligner -/

/-- C1: for every non-empty sorted `search_array` and every `pivot`,
`find_closest` returns an element of the array whose absolute distance to the
pivot is less than or equal to the distance from the pivot to every other
element; in particular a pivot outside the array's range gets a boundary
element, never a no-match. -/
theorem c1_find_closest_nearest (searchArray : List Int) (pivot : Int)
    (hs : searchArray.Sorted (· ≤ ·)) (hne : searchArray ≠ []) :
    ∃ v, findClosestE searchArray pivot = .ok v ∧ v ∈ searchArray ∧
      ∀ w ∈ searchArray, (v - pivot).natAbs ≤ (w - pivot).natAbs :=
  findClosest_spec searchArray pivot hs hne

/-- Witness for C1: search array `[10, 20, 30]`, pivot 100 (outside the full
range, clamping to the boundary element). -/
theorem c1_witness :
    ∃ v, findClosestE [10, 20, 30] 100 = .ok v ∧ v ∈ [10, 20, 30] ∧
      ∀ w ∈ ([10, 20, 30] : List Int), (v - 100).natAbs ≤ (w - 100).natAbs :=
  c1_find_closest_nearest [10, 20, 30] 100 (by decide) (by decide)

/-- C2: on every non-empty sorted array, `closest_within_distance` returns
`None` iff the distance from the pivot to its nearest element strictly
exceeds `max_dist`; at exact equality the match is returned (inclusive
bound), and any returned match is a nearest element within the bound. -/
theorem c2_within_distance_boundary (searchArray : List Int) (pivot : Int)
    (maxDist : Nat) (hs : searchArray.Sorted (· ≤ ·)) (hne : searchArray ≠ []) :
    ∃ r, closestWithinDistanceE searchArray pivot maxDist = .ok r ∧
      (r = none ↔ ∀ w ∈ searchArray, maxDist < (w - pivot).natAbs) ∧
      ∀ u, r = some u → u ∈ searchArray ∧ (u - pivot).natAbs ≤ maxDist ∧
        ∀ w ∈ searchArray, (u - pivot).natAbs ≤ (w - pivot).natAbs := by
  obtain ⟨v, hok, hmem, hmin⟩ := findClosest_spec searchArray pivot hs hne
  refine ⟨if (v - pivot).natAbs ≤ maxDist then some v else none, ?_, ?_, ?_⟩
  · simp [closestWithinDistanceE, hok, Except.map]
  · constructor
    · intro hnone w hw
      by_cases hd : (v - pivot).natAbs ≤ maxDist
      · rw [if_pos hd] at hnone
        exact absurd hnone (by simp)
      · have := hmin w hw
        omega
    · intro hall
      have hv := hall v hmem
      rw [if_neg (by omega)]
  · intro u hu
    by_cases hd : (v - pivot).natAbs ≤ maxDist
    · rw [if_pos hd] at hu
      obtain rfl : v = u := by injection hu
      exact ⟨hmem, hd, hmin⟩
    · rw [if_neg hd] at hu
      exact absurd hu (by simp)

/-- Witness for C2: search array `[10, 20, 30]`, pivot 25, `max_dist` 5 — the
nearest distance equals the bound exactly, so a match is returned. -/
theorem c2_witness :
    ∃ r, closestWithinDistanceE [10, 20, 30] 25 5 = .ok r ∧
      (r = none ↔ ∀ w ∈ ([10, 20, 30] : List Int), 5 < (w - 25).natAbs) ∧
      ∀ u, r = some u → u ∈ [10, 20, 30] ∧ (u - 25).natAbs ≤ 5 ∧
        ∀ w ∈ ([10, 20, 30] : List Int), (u - 25).natAbs ≤ (w - 25).natAbs :=
  c2_within_distance_boundary [10, 20, 30] 25 5 (by decide) (by decide)

/-- C4: when the pivot is exactly equidistant from the element before the
left-insertion index and the element at it, `find_closest` returns the
earlier (lower-index) element, and concretely
`align_arrays([10,20,30], [5,15,25,100])` is `[10, 10, 20, 30]`. -/
theorem c4_tie_resolves_to_earlier (searchArray : List Int) (pivot : Int)
    (h1 : searchsortedLeft searchArray pivot ≠ 0)
    (h2 : searchsortedLeft searchArray pivot < searchArray.length)
    (heq : (searchArray.getD (searchsortedLeft searchArray pivot - 1) 0 - pivot).natAbs
         = (searchArray.getD (searchsortedLeft searchArray pivot) 0 - pivot).natAbs) :
    findClosestE searchArray pivot
      = .ok (searchArray.getD (searchsortedLeft searchArray pivot - 1) 0) ∧
    alignArraysE [10, 20, 30] [5, 15, 25, 100] none
      = .ok [some 10, some 10, some 20, some 30] := by
  refine ⟨?_, rfl⟩
  obtain ⟨k, hk⟩ : ∃ k, searchsortedLeft searchArray pivot = k + 1 :=
    ⟨searchsortedLeft searchArray pivot - 1, by omega⟩
  rw [hk] at h2 heq ⊢
  have hk1 : k < searchArray.length := by omega
  have hdrop : searchArray.drop k
      = searchArray[k] :: searchArray[k + 1] :: searchArray.drop (k + 2) := by
    rw [List.drop_eq_getElem_cons hk1, List.drop_eq_getElem_cons h2]
  have hwin := findClosestE_window_two searchArray pivot
    searchArray[k] searchArray[k + 1] k (searchArray.drop (k + 2)) hk hdrop
  rw [Nat.add_sub_cancel] at heq ⊢
  rw [List.getD_eq_getElem searchArray 0 hk1] at heq ⊢
  rw [List.getD_eq_getElem searchArray 0 h2] at heq
  rw [hwin, if_neg (by omega)]

/-- Witness for C4: search array `[10, 20, 30]`, pivot 15 — equidistant
between 10 and 20, resolved to 10. -/
theorem c4_witness :
    findClosestE [10, 20, 30] 15
      = .ok ([10, 20, 30].getD (searchsortedLeft [10, 20, 30] 15 - 1) 0) ∧
    alignArraysE [10, 20, 30] [5, 15, 25, 100] none
      = .ok [some 10, some 10, some 20, some 30] :=
  c4_tie_resolves_to_earlier [10, 20, 30] 15 (by decide) (by decide) (by decide)

/-- C9: `find_closest` fails — `IndexError` in the source, the spec's
`InvalidInputKind` — exactly when the search array is empty; on every
non-empty array (of the embedding's ordered element type) it succeeds. -/
theorem c9_invalid_input_iff_empty (searchArray : List Int) (pivot : Int) :
    findClosestE searchArray pivot = .error .invalidInput ↔ searchArray = [] := by
  constructor
  · intro herr
    by_contra hne
    obtain ⟨v, hok⟩ := findClosestE_ok_of_ne_nil searchArray pivot hne
    rw [hok] at herr
    exact absurd herr (by simp)
  · intro h
    subst h
    rfl


/-! ### The align_arrays loop and claim C3 -/

/-- If every per-pivot call succeeds, the loop succeeds, fills one slot per
pivot, and slot `i` is the result for pivot `i` alone. -/
lemma alignLoop_ok (f : Int → Except AlignError (Option Int)) :
    ∀ P : List Int, (∀ p ∈ P, ∃ y, f p = .ok y) →
      ∃ out, alignLoop f P = .ok out ∧ out.length = P.length ∧
        ∀ i, i < P.length → f (P.getD i 0) = .ok (out.getD i none) := by
  intro P
  induction P with
  | nil => exact fun _ => ⟨[], rfl, rfl, fun i hi => absurd hi (by simp)⟩
  | cons p ps ih =>
    intro h
    obtain ⟨y, hy⟩ := h p (by simp)
    obtain ⟨out, hout, hlen, hslot⟩ := ih (fun q hq => h q (by simp [hq]))
    refine ⟨y :: out, ?_, by simp [hlen], ?_⟩
    · simp [alignLoop, hy, hout]
    · intro i hi
      cases i with
      | zero => simpa using hy
      | succ j => simpa using hslot j (by simpa using hi)

/-- `find_closest` succeeds for every pivot once the search array is
non-empty, whatever `max_dist` is. -/
lemma alignOne_ok (s : List Int) (md : Option Nat) (p : Int) (hne : s ≠ []) :
    ∃ y, alignOne s md p = .ok y := by
  obtain ⟨v, hv⟩ := findClosestE_ok_of_ne_nil s p hne
  cases md with
  | none => exact ⟨some v, by simp [alignOne, hv, Except.map]⟩
  | some d => exact ⟨if (v - p).natAbs ≤ d then some v else none,
      by simp [alignOne, closestWithinDistanceE, hv, Except.map]⟩

/-- Sorting keeps a list non-empty. -/
lemma insertionSort_ne_nil (l : List Int) (h : l ≠ []) :
    List.insertionSort (· ≤ ·) l ≠ [] := by
  intro hnil
  apply h
  have hlen := (List.perm_insertionSort (· ≤ ·) l).length_eq
  rw [hnil] at hlen
  exact List.length_eq_zero.mp hlen.symm

/-- C3: for every search array (sorted or not) and every pivot array,
`align_arrays` yields exactly one output slot per pivot, in pivot order; slot
`i` is the per-pivot lookup applied to pivot `i` alone against the
defensively sorted copy of the search array, and the whole call is unchanged
by pre-sorting the search array (the stable re-sort makes unsorted input
harmless). -/
theorem c3_align_arrays_shape (searchArray pivotArray : List Int)
    (maxDist : Option Nat) (hne : searchArray ≠ []) :
    ∃ out, alignArraysE searchArray pivotArray maxDist = .ok out ∧
      out.length = pivotArray.length ∧
      (∀ i, i < pivotArray.length →
        alignOne (List.insertionSort (· ≤ ·) searchArray) maxDist
          (pivotArray.getD i 0) = .ok (out.getD i none)) ∧
      alignArraysE searchArray pivotArray maxDist
        = alignArraysE (List.insertionSort (· ≤ ·) searchArray) pivotArray maxDist := by
  have hsne := insertionSort_ne_nil searchArray hne
  obtain ⟨out, hout, hlen, hslot⟩ := alignLoop_ok
    (alignOne (List.insertionSort (· ≤ ·) searchArray) maxDist) pivotArray
    (fun p _ => alignOne_ok _ maxDist p hsne)
  refine ⟨out, hout, hlen, hslot, ?_⟩
  unfold alignArraysE
  rw [(List.sorted_insertionSort (· ≤ ·) searchArray).insertionSort_eq]

/-- Witness for C3: unsorted search array `[30, 10, 20]`, pivots `[11, 25]`,
`max_dist` 3 (the spec's concrete scenario yielding `[10, None]`). -/
theorem c3_witness :
    ∃ out, alignArraysE [30, 10, 20] [11, 25] (some 3) = .ok out ∧
      out.length = ([11, 25] : List Int).length ∧
      (∀ i, i < ([11, 25] : List Int).length →
        alignOne (List.insertionSort (· ≤ ·) [30, 10, 20]) (some 3)
          (([11, 25] : List Int).getD i 0) = .ok (out.getD i none)) ∧
      alignArraysE [30, 10, 20] [11, 25] (some 3)
        = alignArraysE (List.insertionSort (· ≤ ·) [30, 10, 20]) [11, 25] (some 3) :=
  c3_align_arrays_shape [30, 10, 20] [11, 25] (some 3) (by decide)


/-! ### The per-(table, parameter) update unit: claims C5, C7, C10 -/

@[simp]
lemma truthy_none : truthy none = false := rfl

@[simp]
lemma truthy_some (t : Int) : truthy (some t) = true := rfl

/-- Filtering the zipped (header, aligned) pairs by truthiness of the aligned
entry keeps exactly as many keys as filtering the aligned entries alone keeps
values. -/
lemma filter_zip_snd_length :
    ∀ (H : List Int) (A : List (Option Int)), H.length = A.length →
      ((H.zip A).filter (fun ha => truthy ha.2)).length
        = (A.filter truthy).length := by
  intro H
  induction H with
  | nil =>
    intro A h
    cases A with
    | nil => rfl
    | cons a as => simp at h
  | cons x hs ih =>
    intro A h
    cases A with
    | nil => simp at h
    | cons a as =>
      cases a with
      | none => simpa using ih as (by simpa using h)
      | some t => simpa using ih as (by simpa using h)

/-- Zipping the truthy-filtered keys with the truthy-filtered values is the
same as one pass that emits exactly one `(key, value)` pair per matched slot
and nothing for unmatched slots. -/
lemma zip_filter_eq_filterMap (g : Option Int → Int) :
    ∀ (H : List Int) (A : List (Option Int)), H.length = A.length →
      (((H.zip A).filter (fun ha => truthy ha.2)).map Prod.fst).zip
          ((A.filter truthy).map g)
        = (H.zip A).filterMap (fun ha => ha.2.map (fun t => (ha.1, g (some t)))) := by
  intro H
  induction H with
  | nil => intro A h; simp
  | cons x hs ih =>
    intro A h
    cases A with
    | nil => simp at h
    | cons a as =>
      cases a with
      | none => simpa using ih as (by simpa using h)
      | some t => simpa using ih as (by simpa using h)

/-- Counting matched slots: `isSome` entries are the truthy ones. -/
lemma countP_isSome_eq_filter_truthy (A : List (Option Int)) :
    A.countP (fun a => a.isSome) = (A.filter truthy).length := by
  induction A with
  | nil => rfl
  | cons a as ih => cases a <;> simp [List.countP_cons, ih]

/-- `update_table`'s executed pairs, once the alignment result is known. -/
lemma updateUnit_eq (data : List (Int × Int)) (hdrtimes : List Int)
    (aligned : List (Option Int))
    (hal : alignedDates (subData data) hdrtimes = .ok aligned) :
    updateUnit data hdrtimes
      = .ok ((((hdrtimes.zip aligned).filter (fun ha => truthy ha.2)).map Prod.fst).zip
          ((aligned.filter truthy).map
            (fun a => lookupVal (subData data) (a.getD 0)))) := by
  unfold updateUnit
  dsimp only
  rw [hal]
  rfl


/-- C10: within one partition/parameter unit, the key list and the value list
handed to `run_update_sql` are filtered by truthiness of the same alignment
entries and always have equal length, so every executed update statement
pairs exactly one header-time key with exactly one value, and the number of
updates equals the number of non-null alignment results. -/
theorem c10_keys_values_aligned (data : List (Int × Int)) (hdrtimes : List Int)
    (hsub : subData data ≠ []) :
    ∃ aligned updates,
      alignedDates (subData data) hdrtimes = .ok aligned ∧
      updateUnit data hdrtimes = .ok updates ∧
      (((hdrtimes.zip aligned).filter (fun ha => truthy ha.2)).map Prod.fst).length
        = ((aligned.filter truthy).map
            (fun a => lookupVal (subData data) (a.getD 0))).length ∧
      updates.length = aligned.countP (fun a => a.isSome) := by
  have hmapne : (subData data).map Prod.fst ≠ [] := by
    intro h
    exact hsub (List.map_eq_nil_iff.mp h)
  have hsne := insertionSort_ne_nil _ hmapne
  obtain ⟨aligned, hal, hlenal, _⟩ := alignLoop_ok
    (alignOne (List.insertionSort (· ≤ ·) ((subData data).map Prod.fst)) (some 20))
    (adjustedHdrtimes hdrtimes)
    (fun p _ => alignOne_ok _ (some 20) p hsne)
  have halE : alignedDates (subData data) hdrtimes = .ok aligned := hal
  have hlen : hdrtimes.length = aligned.length := by
    rw [hlenal]
    simp [adjustedHdrtimes]
  have hkeyval := filter_zip_snd_length hdrtimes aligned hlen
  refine ⟨aligned, _, halE, updateUnit_eq data hdrtimes aligned halE, ?_, ?_⟩
  · simp [hkeyval]
  · rw [List.length_zip]
    simp [hkeyval, countP_isSome_eq_filter_truthy]

/-- Witness for C10: sensor data `[(17, 5)]`, header times `[0, 50]` — one
matched and one unmatched slot, one executed update. -/
theorem c10_witness :
    ∃ aligned updates,
      alignedDates (subData [(17, 5)]) [0, 50] = .ok aligned ∧
      updateUnit [(17, 5)] [0, 50] = .ok updates ∧
      (((([0, 50] : List Int).zip aligned).filter
            (fun ha => truthy ha.2)).map Prod.fst).length
        = ((aligned.filter truthy).map
            (fun a => lookupVal (subData [(17, 5)]) (a.getD 0))).length ∧
      updates.length = aligned.countP (fun a => a.isSome) :=
  c10_keys_values_aligned [(17, 5)] [0, 50] (by decide)


/-- C7 counterexample: sensor data `[(17, 5)]` and header times `[0, 1]` —
the single sensor observation at time 17 is the aligned match of both
offset-adjusted header times (17 and 18), so the same sensor point is
matched to two distinct header timestamps and two updates carry its value. -/
theorem c7_counterexample :
    alignedDates (subData [(17, 5)]) [0, 1] = .ok [some 17, some 17] ∧
    updateUnit [(17, 5)] [0, 1] = .ok [(0, 5), (1, 5)] :=
  ⟨rfl, rfl⟩

/-- C7 (amended): within one partition/parameter unit, exactly one update is
emitted per matched (header time, aligned sensor time) pair and none for
unmatched headers, but the aligner does not consume matches, so one sensor
observation may serve several header timestamps. -/
theorem c7_one_update_per_matched_pair (data : List (Int × Int))
    (hdrtimes : List Int) (hsub : subData data ≠ []) :
    ∃ aligned updates,
      alignedDates (subData data) hdrtimes = .ok aligned ∧
      updateUnit data hdrtimes = .ok updates ∧
      updates = (hdrtimes.zip aligned).filterMap
        (fun ha => ha.2.map
          (fun t => (ha.1, lookupVal (subData data) ((some t).getD 0)))) := by
  have hmapne : (subData data).map Prod.fst ≠ [] := by
    intro h
    exact hsub (List.map_eq_nil_iff.mp h)
  have hsne := insertionSort_ne_nil _ hmapne
  obtain ⟨aligned, hal, hlenal, _⟩ := alignLoop_ok
    (alignOne (List.insertionSort (· ≤ ·) ((subData data).map Prod.fst)) (some 20))
    (adjustedHdrtimes hdrtimes)
    (fun p _ => alignOne_ok _ (some 20) p hsne)
  have halE : alignedDates (subData data) hdrtimes = .ok aligned := hal
  have hlen : hdrtimes.length = aligned.length := by
    rw [hlenal]
    simp [adjustedHdrtimes]
  refine ⟨aligned, _, halE, updateUnit_eq data hdrtimes aligned halE, ?_⟩
  exact zip_filter_eq_filterMap
    (fun a => lookupVal (subData data) (a.getD 0)) hdrtimes aligned hlen

/-- Witness for C7 (amended) at sensor data `[(17, 5)]`, header times
`[0, 1]`. -/
theorem c7_witness :
    ∃ aligned updates,
      alignedDates (subData [(17, 5)]) [0, 1] = .ok aligned ∧
      updateUnit [(17, 5)] [0, 1] = .ok updates ∧
      updates = (([0, 1] : List Int).zip aligned).filterMap
        (fun ha => ha.2.map
          (fun t => (ha.1, lookupVal (subData [(17, 5)]) ((some t).getD 0)))) :=
  c7_one_update_per_matched_pair [(17, 5)] [0, 1] (by decide)


/-- A member of a list sits at some index. -/
lemma mem_getD (l : List Int) (x : Int) (hx : x ∈ l) :
    ∃ i, i < l.length ∧ l.getD i 0 = x := by
  obtain ⟨n, hn⟩ := List.mem_iff_get.mp hx
  refine ⟨n.1, n.2, ?_⟩
  rw [List.getD_eq_getElem _ _ n.2, ← List.get_eq_getElem]
  exact hn

/-- Slot `i` of the offset-adjusted header times. -/
lemma adjustedHdrtimes_getD (l : List Int) (i : Nat) (hi : i < l.length) :
    (adjustedHdrtimes l).getD i 0 = l.getD i 0 + 17 := by
  unfold adjustedHdrtimes
  rw [List.getD_eq_getElem _ _ (by simpa using hi), List.getD_eq_getElem _ _ hi,
    List.getElem_map]

/-- The `i`-th pair of a zip of two equally indexed lists. -/
lemma getD_mem_zip (H : List Int) :
    ∀ (A : List (Option Int)) (i : Nat), i < H.length → i < A.length →
      (H.getD i 0, A.getD i none) ∈ H.zip A := by
  induction H with
  | nil => intro A i hi _; simp at hi
  | cons x hs ih =>
    intro A i hi hA
    cases A with
    | nil => simp at hA
    | cons a as =>
      cases i with
      | zero => simp
      | succ j =>
        have := ih as j (by simpa using hi) (by simpa using hA)
        simp only [List.getD_cons_succ, List.zip_cons_cons]
        exact List.mem_cons_of_mem _ this

/-- A pivot that is itself an element of the sorted search array aligns to
itself under any tolerance (distance zero is minimal and inclusive). -/
lemma alignOne_exact (s : List Int) (x : Int) (d : Nat)
    (hs : s.Sorted (· ≤ ·)) (hx : x ∈ s) :
    alignOne s (some d) x = .ok (some x) := by
  obtain ⟨v, hok, _, hmin⟩ := findClosest_spec s x hs
    (by rintro rfl; simp at hx)
  have h0 : (v - x).natAbs = 0 := by
    have := hmin x hx
    simpa using this
  have hvx : v = x := by omega
  subst hvx
  simp [alignOne, closestWithinDistanceE, hok, Except.map, h0]

/-- Looking a datetime up in rows with pairwise-distinct datetimes returns
that row's value. -/
lemma lookupVal_eq (rows : List (Int × Int)) (t v : Int)
    (hnd : (rows.map Prod.fst).Nodup) (hmem : (t, v) ∈ rows) :
    lookupVal rows t = v := by
  induction rows with
  | nil => simp at hmem
  | cons r rs ih =>
    simp only [List.map_cons, List.nodup_cons] at hnd
    rcases List.mem_cons.mp hmem with h | h
    · subst h
      simp [lookupVal]
    · have hne : (r.1 == t) = false := by
        apply beq_eq_false_iff_ne.mpr
        intro heq
        apply hnd.1
        rw [heq]
        exact List.mem_map.mpr ⟨(t, v), h, rfl⟩
      have htail := ih hnd.2 h
      unfold lookupVal at htail ⊢
      simp [hne]
      simpa using htail

/-- Positive-value filtering keeps the datetimes pairwise distinct. -/
lemma subData_fst_nodup (data : List (Int × Int))
    (h : (data.map Prod.fst).Nodup) : ((subData data).map Prod.fst).Nodup := by
  apply List.Nodup.sublist _ h
  exact ((List.filter_sublist data).map Prod.fst)

/-- C5: for a header timestamp `T` with an eligible (positive-valued,
uniquely-timestamped) sensor sample at exactly `T + 17` minutes, the pair
matches inside the 20-minute tolerance applied after the fixed 17-minute
offset, and the executed update carries the original pre-offset `T` as its
key with that sensor value as payload. -/
theorem c5_offset_preserved_key (data : List (Int × Int)) (hdrtimes : List Int)
    (T v : Int) (hT : T ∈ hdrtimes) (hrow : (T + 17, v) ∈ data) (hv : 0 < v)
    (hnd : (data.map Prod.fst).Nodup) :
    ∃ updates, updateUnit data hdrtimes = .ok updates ∧ (T, v) ∈ updates := by
  have hrowsub : (T + 17, v) ∈ subData data := by
    unfold subData
    exact List.mem_filter.mpr ⟨hrow, by simpa using hv⟩
  have hsub : subData data ≠ [] := by
    intro hnil
    rw [hnil] at hrowsub
    simp at hrowsub
  have htimes : T + 17 ∈ (subData data).map Prod.fst :=
    List.mem_map.mpr ⟨_, hrowsub, rfl⟩
  have hmapne : (subData data).map Prod.fst ≠ [] := by
    intro h
    exact hsub (List.map_eq_nil_iff.mp h)
  have hsne := insertionSort_ne_nil _ hmapne
  have hss : (List.insertionSort (· ≤ ·) ((subData data).map Prod.fst)).Sorted (· ≤ ·) :=
    List.sorted_insertionSort _ _
  have hmems : T + 17 ∈ List.insertionSort (· ≤ ·) ((subData data).map Prod.fst) :=
    ((List.perm_insertionSort _ _).mem_iff).mpr htimes
  obtain ⟨aligned, hal, hlenal, hslot⟩ := alignLoop_ok
    (alignOne (List.insertionSort (· ≤ ·) ((subData data).map Prod.fst)) (some 20))
    (adjustedHdrtimes hdrtimes)
    (fun p _ => alignOne_ok _ (some 20) p hsne)
  have halE : alignedDates (subData data) hdrtimes = .ok aligned := hal
  have hlen : hdrtimes.length = aligned.length := by
    rw [hlenal]
    simp [adjustedHdrtimes]
  obtain ⟨i, hi, hgetT⟩ := mem_getD hdrtimes T hT
  have hslotI := hslot i (by simpa [adjustedHdrtimes] using hi)
  rw [adjustedHdrtimes_getD hdrtimes i hi, hgetT,
    alignOne_exact _ (T + 17) 20 hss hmems] at hslotI
  have haligned : aligned.getD i none = some (T + 17) := by
    injection hslotI with h
    exact h.symm
  refine ⟨_, updateUnit_eq data hdrtimes aligned halE, ?_⟩
  rw [zip_filter_eq_filterMap
    (fun a => lookupVal (subData data) (a.getD 0)) hdrtimes aligned hlen]
  apply List.mem_filterMap.mpr
  refine ⟨(T, some (T + 17)), ?_, ?_⟩
  · have hz := getD_mem_zip hdrtimes aligned i hi (by omega)
    rw [hgetT, haligned] at hz
    exact hz
  · have hlook : lookupVal (subData data) (T + 17) = v :=
      lookupVal_eq (subData data) (T + 17) v (subData_fst_nodup data hnd) hrowsub
    simp [hlook]

/-- Witness for C5: sensor data `[(17, 5)]`, header times `[0]`, `T = 0`,
`v = 5` — the executed update is `(0, 5)`, keyed by the pre-offset header
time. -/
theorem c5_witness :
    ∃ updates, updateUnit [(17, 5)] [0] = .ok updates ∧
      ((0 : Int), (5 : Int)) ∈ updates :=
  c5_offset_preserved_key [(17, 5)] [0] 0 5 (by decide) (by decide) (by decide)
    (by decide)


/-! ### Claims C6 and C8: testing mode and partition-existence filtering -/

/-- C6: `update_table` stores but never consults the `testing` flag, so the
persistence effects of a unit are identical for `testing=True` and
`testing=False`; in particular with `testing=True` an update statement and a
commit still reach the backing store (here at sensor data `[(17, 5)]`,
header times `[0]`), contradicting the `__init__` docstring's promise that
testing mode performs no database updates. -/
theorem c6_testing_flag_ignored :
    (∀ (t₁ t₂ : Bool) (data : List (Int × Int)) (hdrtimes : List Int),
        updateUnitActions t₁ data hdrtimes = updateUnitActions t₂ data hdrtimes) ∧
    updateUnitActions true [(17, 5)] [0]
      = .ok [DbAction.execUpdate 0 5, DbAction.commit] :=
  ⟨fun _ _ _ _ => rfl, rfl⟩

/-- C8: the removal loop of `_test_for_eng_table_existence` skips the element
after each removal, so of two consecutive non-existent partitions only the
first is removed — the second survives into the processed list and the
returned metadata. A lone non-existent partition is removed correctly. -/
theorem c8_missing_partition_survives :
    testForEngTableExistence (fun _ => false) ["eng_a", "eng_b"] = ["eng_b"] ∧
    testForEngTableExistence (fun _ => false) ["eng_b"] = [] := by
  constructor
  · rw [testForEngTableExistence, removePass]
    simp [List.erase]
    rw [removePass]
    simp
  · rw [testForEngTableExistence, removePass]
    simp [List.erase]
    rw [removePass]
    simp

end OceanToDatabase
